import Mathlib

/-!
Shallow embedding of the key-issuance bot (`bot.py`) and proofs about its
entitlement, issuance, persistence and payment-reconciliation logic.

Modelling conventions:
* The persisted JSON snapshot (`data.json`) is a `Snapshot`: association
  lists model the Python dicts `users` and `pending` (insertion order
  preserved, update-in-place, append on fresh key, like Python dicts).
* Each handler is a pure function from the persisted snapshot (plus the
  external inputs that the handler reads: membership-check outcomes,
  random tokens from `secrets`, clock values) to its result together with
  the snapshot that is persisted when the handler returns.  A handler that
  never calls `save_data` returns the input snapshot unchanged.
* Randomness (`secrets.token_hex`) is an oracle input: the drawn lowercase
  hex string is a parameter of the issuing handler.
* Timestamps are integer seconds (`Int`); the payment comment uses the
  truncated `int(time.time())` second, modelled as a `Nat`.
-/

set_option maxHeartbeats 1000000

/-- One issued key, exactly the fields of the `key_obj` dict built in
`get_key_handler` (`id`, `key`, `valid_until`, `created_at`). -/
structure Key where
  id : String
  key : String
  valid_until : Int
  created_at : Int
  deriving DecidableEq

/-- A user record, exactly the fields created by `ensure_user`:
`username`, `manual_limit` (None means "compute automatically"),
`keys_used` and the list of issued keys. -/
structure UserRecord where
  username : String
  manual_limit : Option Nat
  keys_used : Nat
  keys : List Key
  deriving DecidableEq

/-- A pending payment intent, exactly the dict stored by `buy_key_handler`. -/
structure PendingPayment where
  user_id : String
  amount : Rat
  created_at : Int
  status : String
  deriving DecidableEq

/-- The persisted snapshot (`data.json`): `users` keyed by user-id string,
`pending` keyed by the payment comment string. -/
structure Snapshot where
  users : List (String × UserRecord)
  pending : List (String × PendingPayment)
  deriving DecidableEq

def emptySnapshot : Snapshot := { users := [], pending := [] }

/-- Dict read `d[q]` (first matching key; Python dicts have unique keys). -/
def alGet {α : Type} : List (String × α) → String → Option α
  | [], _ => none
  | (k, v) :: t, q => if k = q then some v else alGet t q

/-- Dict write `d[q] = v`: update in place if the key is present,
append at the end otherwise (Python dict insertion-order semantics). -/
def alSet {α : Type} : List (String × α) → String → α → List (String × α)
  | [], q, v => [(q, v)]
  | (k, w) :: t, q, v => if k = q then (q, v) :: t else (k, w) :: alSet t q v

/-- Dict delete `del d[q]` (removes the entry with key `q`). -/
def alDel {α : Type} : List (String × α) → String → List (String × α)
  | [], _ => []
  | (k, w) :: t, q => if k = q then t else (k, w) :: alDel t q

/-- Membership status of a chat member as reported by the Telegram API. -/
inductive ChatStatus
  | member
  | administrator
  | creator
  | left
  | kicked
  | restricted
  deriving DecidableEq

/-- Outcome of one `bot.get_chat_member` call: a status, or a raised
exception (timeout, not-found, API error), which the code catches. -/
inductive MemberCheck
  | ok (st : ChatStatus)
  | err
  deriving DecidableEq

/-- The external environment read by `calculate_limit` for one user:
whether `CHAT_ID_1` / `CHAT_ID_2` are configured (non-zero), and the
outcome of the membership check against each chat. -/
structure Env where
  chat1 : Bool
  chat2 : Bool
  check1 : MemberCheck
  check2 : MemberCheck
  deriving DecidableEq

/-- `KEYS_PER_CHAT = 3` from the configuration section. -/
def KEYS_PER_CHAT : Nat := 3

/-- The status test `member.status in ['member', 'administrator', 'creator']`. -/
def statusCounts (st : ChatStatus) : Bool :=
  match st with
  | ChatStatus.member => true
  | ChatStatus.administrator => true
  | ChatStatus.creator => true
  | _ => false

/-- Bonus contributed by one chat check: `KEYS_PER_CHAT` if the chat is
configured and the check succeeds with a counting status; `0` if the chat
is unconfigured, the status does not count, or the check raised (the
`except` branch only logs). -/
def chatBonus (configured : Bool) (c : MemberCheck) : Nat :=
  if configured then
    match c with
    | MemberCheck.ok st => if statusCounts st then KEYS_PER_CHAT else 0
    | MemberCheck.err => 0
  else 0

/-- `calculate_limit`: a set `manual_limit` wins unconditionally; otherwise
the chat bonuses are summed and a zero sum falls back to the baseline 1. -/
def calculate_limit (env : Env) (u : UserRecord) : Nat :=
  match u.manual_limit with
  | some m => m
  | none =>
    let l := chatBonus env.chat1 env.check1 + chatBonus env.chat2 env.check2
    if l = 0 then 1 else l

/-- Python `str.upper()` restricted to ASCII, as used on hex tokens. -/
def pyUpper (s : String) : String := ⟨s.data.map Char.toUpper⟩

/-- `generate_key_string`: the credential is the fixed prefix followed by
the uppercased random token (`secrets.token_hex(4)` is the oracle input). -/
def generate_key_string (tokenHex : String) : String :=
  "KVN-" ++ pyUpper tokenHex

/-- The record that `data["users"][user_id]` holds right after
`ensure_user`: a fresh default record when the user is new, otherwise the
stored record with only the username refreshed. -/
def ensured_record (uid uname : String) (s : Snapshot) : UserRecord :=
  match alGet s.users uid with
  | none => { username := uname, manual_limit := none, keys_used := 0, keys := [] }
  | some u => { u with username := uname }

/-- `ensure_user`: insert a default record if absent, else refresh only the
display name. -/
def ensure_user (uid uname : String) (s : Snapshot) : Snapshot :=
  { s with users := alSet s.users uid (ensured_record uid uname s) }

/-- Result of the issue-key handler, as displayed to the user. -/
inductive IssueResult
  | limitExceeded (limit used : Nat)
  | issued (k : Key) (progress limit : Nat)
  deriving DecidableEq

/-- `get_key_handler`: ensure the user, compute the limit, count the used
keys; refuse without saving when `used >= limit`; otherwise mint a key from
the random oracle inputs, append it, refresh `keys_used` and persist. -/
def get_key_handler (env : Env) (uid uname keyHex idHex : String) (now : Int)
    (s : Snapshot) : IssueResult × Snapshot :=
  let u := ensured_record uid uname s
  let d := ensure_user uid uname s
  let limit := calculate_limit env u
  let used := u.keys.length
  if used ≥ limit then
    (IssueResult.limitExceeded limit used, s)
  else
    let k : Key := { id := pyUpper idHex, key := generate_key_string keyHex,
                     valid_until := now + 30 * 86400, created_at := now }
    let ks := u.keys ++ [k]
    let u2 := { u with keys := ks, keys_used := ks.length }
    (IssueResult.issued k ks.length limit, { d with users := alSet d.users uid u2 })

/-- `my_keys_handler`: a pure read that tags every stored key as expired
when `valid_until` is not in the future; the purge is commented out in the
source, so the persisted snapshot is returned unchanged. -/
def my_keys_handler (uid uname : String) (now : Int) (s : Snapshot) :
    List (Key × Bool) × Snapshot :=
  let u := ensured_record uid uname s
  (u.keys.map (fun k => (k, if now < k.valid_until then false else true)), s)

/-- ASCII digit character for `d % 10`. -/
def digitChar (d : Nat) : Char := Char.ofNat (48 + d % 10)

/-- Fuelled most-significant-digit-first decimal rendering (the fuel
`n + 1` always suffices); models Python decimal formatting of an `int`. -/
def natDigitsAux : Nat → Nat → List Char → List Char
  | 0, _, acc => acc
  | fuel + 1, n, acc =>
    if n < 10 then digitChar n :: acc
    else natDigitsAux fuel (n / 10) (digitChar (n % 10) :: acc)

/-- Decimal rendering of a natural number, as an f-string renders an `int`. -/
def natToStr (n : Nat) : String := ⟨natDigitsAux (n + 1) n []⟩

/-- Python `str.split(sep)` for a one-character separator. -/
def splitChar (sep : Char) : List Char → List (List Char)
  | [] => [[]]
  | c :: t =>
    let r := splitChar sep t
    if c = sep then [] :: r else (c :: r.headD []) :: r.tail

/-- Python tuple unpacking `a, b, c = l`: succeeds only on exactly three
elements, otherwise raises `ValueError`. -/
def unpack3 {α : Type} : List α → Option (α × α × α)
  | [a, b, c] => some (a, b, c)
  | _ => none

def digitVal (c : Char) : Option Nat :=
  if 48 ≤ c.toNat ∧ c.toNat ≤ 57 then some (c.toNat - 48) else none

def parseNatAux : List Char → Nat → Option Nat
  | [], acc => some acc
  | c :: t, acc =>
    match digitVal c with
    | none => none
    | some d => parseNatAux t (10 * acc + d)

/-- Python `int(s)` on the strings this bot produces (digit strings). -/
def parseNat (s : String) : Option Nat :=
  match s.data with
  | [] => none
  | l => parseNatAux l 0

/-- The callback data `f"set_lim_{target_user_id}_{lim}"` placed on each
button by `get_admin_limits_keyboard`. -/
def limit_callback_data (target : String) (lim : Nat) : String :=
  "set_lim_" ++ target ++ "_" ++ natToStr lim

/-- `get_admin_limits_keyboard`: the callback payloads of the four
quick-set buttons (limits 1, 8, 16, 100). -/
def get_admin_limits_keyboard (target : String) : List String :=
  [1, 8, 16, 100].map (fun lim => limit_callback_data target lim)

/-- Outcome of the admin set-limit callback handler. -/
inductive SetLimitResult
  | valueError
  | ok (target : String) (newLimit : Nat)
  | notFound
  deriving DecidableEq

/-- `set_limit_callback` after the admin check: unpack
`_, target_id, limit_val = callback.data.split("_")` (raising `ValueError`
when the split does not have exactly three parts), parse the limit, then
overwrite `manual_limit` and persist when the target exists. -/
def set_limit_callback (cbData : String) (s : Snapshot) : SetLimitResult × Snapshot :=
  match unpack3 ((splitChar '_' cbData.data).map (fun cs => (⟨cs⟩ : String))) with
  | none => (SetLimitResult.valueError, s)
  | some (_, target_id, limit_val) =>
    match parseNat limit_val with
    | none => (SetLimitResult.valueError, s)
    | some newLimit =>
      match alGet s.users target_id with
      | some u =>
        (SetLimitResult.ok target_id newLimit,
         { s with users := alSet s.users target_id { u with manual_limit := some newLimit } })
      | none => (SetLimitResult.notFound, s)

/-- Price of one slot, `amount_ton = 0.5`. -/
def amount_ton : Rat := 1 / 2

/-- The payment reference `f"pay_{message.from_user.id}_{int(time.time())}"`. -/
def payment_comment (uid : String) (nowSec : Nat) : String :=
  "pay_" ++ uid ++ "_" ++ natToStr nowSec

/-- `buy_key_handler`: build the comment from the user id and the current
integer second, store a `waiting` pending intent under that comment
(overwriting any entry already stored under the same comment) and persist. -/
def buy_key_handler (uid : String) (nowSec : Nat) (s : Snapshot) : String × Snapshot :=
  let comment := payment_comment uid nowSec
  let p : PendingPayment :=
    { user_id := uid, amount := amount_ton, created_at := (nowSec : Int), status := "waiting" }
  (comment, { s with pending := alSet s.pending comment p })

/-- The `current_manual` baseline resolved by `finalize_payment`: the set
`manual_limit`, or the automatically calculated limit when it is unset. -/
def baseline (env : Env) (u : UserRecord) : Nat :=
  match u.manual_limit with
  | some m => m
  | none => calculate_limit env u

/-- `finalize_payment`: when the comment is pending and the payer has a
user record, set `manual_limit` to the baseline plus one, drop the pending
entry and persist, returning the new limit; in every other case nothing is
mutated, nothing is persisted and no success message is produced (`none`). -/
def finalize_payment (env : Env) (ref : String) (s : Snapshot) : Option Nat × Snapshot :=
  match alGet s.pending ref with
  | none => (none, s)
  | some info =>
    match alGet s.users info.user_id with
    | none => (none, s)
    | some u =>
      let newLim := baseline env u + 1
      (some newLim,
       { users := alSet s.users info.user_id { u with manual_limit := some newLim },
         pending := alDel s.pending ref })

/-- State of the backing file `data.json` as `load_data` can observe it:
absent at the `os.path.exists` check; present but vanished before `open`
(raises `FileNotFoundError`, which the handler catches); present but not
openable or readable (`PermissionError`, `IsADirectoryError` and other
`OSError`s — not caught); present but not valid UTF-8 (`open` with
`encoding="utf-8"` raises `UnicodeDecodeError` — not caught); present and
readable UTF-8 but not valid JSON (raises `json.JSONDecodeError`, which the
handler catches); or decodable to a snapshot. -/
inductive FileState
  | missing
  | vanished
  | unreadable
  | badUtf8
  | badJson
  | ok (s : Snapshot)
  deriving DecidableEq

/-- An exception escaping `load_data` uncaught (fatal to the caller). -/
inductive PyExc
  | unicodeDecodeError
  | osError
  deriving DecidableEq

/-- Outcome of `load_data`: a returned snapshot, or an uncaught exception
propagating out of the function. -/
inductive LoadResult
  | ok (s : Snapshot)
  | raised (e : PyExc)
  deriving DecidableEq

/-- `load_data`: a missing file short-circuits to the empty default; inside
the `try`, only `json.JSONDecodeError` and `FileNotFoundError` are caught
(also yielding the empty default), so a `UnicodeDecodeError` from
undecodable bytes or an `OSError` from an unreadable path escapes uncaught. -/
def load_data : FileState → LoadResult
  | FileState.missing => LoadResult.ok emptySnapshot
  | FileState.vanished => LoadResult.ok emptySnapshot
  | FileState.unreadable => LoadResult.raised PyExc.osError
  | FileState.badUtf8 => LoadResult.raised PyExc.unicodeDecodeError
  | FileState.badJson => LoadResult.ok emptySnapshot
  | FileState.ok s => LoadResult.ok s

/-- One core operation against the persisted snapshot, with the external
inputs (membership outcomes, random tokens, clock readings) it consumes. -/
inductive Op
  | start (uid uname : String)
  | issue (env : Env) (uid uname keyHex idHex : String) (now : Int)
  | listKeys (uid uname : String) (now : Int)
  | setLimit (cbData : String)
  | buy (uid : String) (nowSec : Nat)
  | finalize (env : Env) (ref : String)

/-- The snapshot persisted after running one core operation. -/
def applyOp : Op → Snapshot → Snapshot
  | Op.start uid uname, s => ensure_user uid uname s
  | Op.issue env uid uname keyHex idHex now, s =>
    (get_key_handler env uid uname keyHex idHex now s).2
  | Op.listKeys uid uname now, s => (my_keys_handler uid uname now s).2
  | Op.setLimit cbData, s => (set_limit_callback cbData s).2
  | Op.buy uid nowSec, s => (buy_key_handler uid nowSec s).2
  | Op.finalize env ref, s => (finalize_payment env ref s).2

/-- The external inputs of one issuance attempt. -/
structure IssueCall where
  uid : String
  uname : String
  keyHex : String
  idHex : String
  now : Int

/-- The snapshot persisted after one issuance attempt, with the membership
environment of each user given by `envOf`. -/
def issueStep (envOf : String → Env) (s : Snapshot) (c : IssueCall) : Snapshot :=
  (get_key_handler (envOf c.uid) c.uid c.uname c.keyHex c.idHex c.now s).2

/-- The snapshot persisted after a sequence of issuance attempts. -/
def runIssues (envOf : String → Env) (calls : List IssueCall) (s : Snapshot) : Snapshot :=
  calls.foldl (issueStep envOf) s

/-- Every stored user's key count is within that user's computed limit. -/
def limitInv (envOf : String → Env) (s : Snapshot) : Prop :=
  ∀ p ∈ s.users, p.2.keys.length ≤ calculate_limit (envOf p.1) p.2

/-- Every stored user's `keys_used` counter equals the length of its key
list. -/
def keysInv (s : Snapshot) : Prop :=
  ∀ p ∈ s.users, p.2.keys_used = p.2.keys.length

/-- All credential strings stored anywhere in the snapshot. -/
def credList (s : Snapshot) : List String :=
  s.users.foldr (fun p acc => (p.2.keys.map (fun k => k.key)) ++ acc) []

/-- Membership in the alphabet produced by `secrets.token_hex`. -/
def isLowerHex (c : Char) : Bool :=
  decide (c = '0' ∨ c = '1' ∨ c = '2' ∨ c = '3' ∨ c = '4' ∨ c = '5' ∨ c = '6' ∨ c = '7' ∨
    c = '8' ∨ c = '9' ∨ c = 'a' ∨ c = 'b' ∨ c = 'c' ∨ c = 'd' ∨ c = 'e' ∨ c = 'f')

/-- A string drawn from `secrets.token_hex` (lowercase hex alphabet). -/
def isLowerHexStr (s : String) : Bool := s.data.all isLowerHex

/-- A membership check that raised or reported a non-counting status. -/
def checkFailsOrNonMember (c : MemberCheck) : Bool :=
  match c with
  | MemberCheck.err => true
  | MemberCheck.ok st => !statusCounts st

/-- Decimal value of a digit-character list, most significant digit first. -/
def valMsd (l : List Char) : Nat :=
  l.foldl (fun a c => 10 * a + (c.toNat - 48)) 0

theorem str_data_append (a b : String) : (a ++ b).data = a.data ++ b.data := by
  cases a
  cases b
  rfl

theorem string_data_inj {a b : String} (h : a.data = b.data) : a = b := by
  cases a
  cases b
  exact congrArg String.mk h

theorem mem_alSet {α : Type} (p : String × α) :
    ∀ (l : List (String × α)) (k : String) (v : α),
      p ∈ alSet l k v → p = (k, v) ∨ p ∈ l := by
  intro l
  induction l with
  | nil =>
    intro k v h
    simp [alSet] at h
    exact Or.inl h
  | cons hd t ih =>
    intro k v h
    obtain ⟨a, b⟩ := hd
    unfold alSet at h
    by_cases hk : a = k
    · rw [if_pos hk] at h
      rcases List.mem_cons.mp h with h1 | h2
      · exact Or.inl h1
      · exact Or.inr (List.mem_cons.mpr (Or.inr h2))
    · rw [if_neg hk] at h
      rcases List.mem_cons.mp h with h1 | h2
      · exact Or.inr (List.mem_cons.mpr (Or.inl h1))
      · rcases ih k v h2 with h3 | h4
        · exact Or.inl h3
        · exact Or.inr (List.mem_cons.mpr (Or.inr h4))

theorem alGet_mem {α : Type} :
    ∀ (l : List (String × α)) (q : String) (v : α),
      alGet l q = some v → (q, v) ∈ l := by
  intro l
  induction l with
  | nil => intro q v h; simp [alGet] at h
  | cons hd t ih =>
    intro q v h
    obtain ⟨a, b⟩ := hd
    unfold alGet at h
    by_cases hk : a = q
    · rw [if_pos hk] at h
      injection h with h2
      subst hk
      subst h2
      exact List.mem_cons.mpr (Or.inl rfl)
    · rw [if_neg hk] at h
      exact List.mem_cons.mpr (Or.inr (ih q v h))

theorem alGet_alSet_self {α : Type} :
    ∀ (l : List (String × α)) (k : String) (v : α), alGet (alSet l k v) k = some v := by
  intro l
  induction l with
  | nil => intro k v; simp [alGet, alSet]
  | cons hd t ih =>
    intro k v
    obtain ⟨a, b⟩ := hd
    unfold alSet
    by_cases hk : a = k
    · rw [if_pos hk]
      simp [alGet]
    · rw [if_neg hk]
      unfold alGet
      rw [if_neg hk]
      exact ih k v

theorem alGet_eq_none {α : Type} :
    ∀ (l : List (String × α)) (q : String), q ∉ l.map Prod.fst → alGet l q = none := by
  intro l
  induction l with
  | nil => intro q _; rfl
  | cons hd t ih =>
    intro q h
    obtain ⟨a, b⟩ := hd
    simp only [List.map_cons, List.mem_cons] at h
    push_neg at h
    unfold alGet
    rw [if_neg (fun he => h.1 he.symm)]
    exact ih q h.2

theorem alGet_alDel_self {α : Type} :
    ∀ (l : List (String × α)) (q : String),
      (l.map Prod.fst).Nodup → alGet (alDel l q) q = none := by
  intro l
  induction l with
  | nil => intro q _; rfl
  | cons hd t ih =>
    intro q hnd
    obtain ⟨a, b⟩ := hd
    simp only [List.map_cons, List.nodup_cons] at hnd
    unfold alDel
    by_cases hk : a = q
    · rw [if_pos hk]
      subst hk
      exact alGet_eq_none t a hnd.1
    · rw [if_neg hk]
      unfold alGet
      rw [if_neg hk]
      exact ih q hnd.2

theorem calculate_limit_congr (env : Env) (u v : UserRecord)
    (h : u.manual_limit = v.manual_limit) :
    calculate_limit env u = calculate_limit env v := by
  unfold calculate_limit
  rw [h]

theorem digitChar_toNat (d : Nat) : (digitChar d).toNat = 48 + d % 10 := by
  have h : d % 10 < 10 := Nat.mod_lt _ (by omega)
  unfold digitChar
  revert h
  generalize d % 10 = m
  intro h
  interval_cases m <;> decide

theorem digitChar_ne_underscore (d : Nat) : digitChar d ≠ '_' := by
  intro h
  have h2 := congrArg Char.toNat h
  rw [digitChar_toNat] at h2
  have h3 : d % 10 < 10 := Nat.mod_lt _ (by omega)
  have h4 : ('_').toNat = 95 := rfl
  rw [h4] at h2
  omega

theorem natDigitsAux_succ (fuel n : Nat) (acc : List Char) :
    natDigitsAux (fuel + 1) n acc =
      if n < 10 then digitChar n :: acc
      else natDigitsAux fuel (n / 10) (digitChar (n % 10) :: acc) := rfl

theorem natDigitsAux_chars : ∀ (fuel n : Nat) (acc : List Char),
    (∀ c ∈ acc, c ≠ '_') → ∀ c ∈ natDigitsAux fuel n acc, c ≠ '_' := by
  intro fuel
  induction fuel with
  | zero => intro n acc hacc; exact hacc
  | succ fuel ih =>
    intro n acc hacc
    rw [natDigitsAux_succ]
    by_cases h : n < 10
    · rw [if_pos h]
      intro c hc
      rcases List.mem_cons.mp hc with rfl | hc2
      · exact digitChar_ne_underscore n
      · exact hacc c hc2
    · rw [if_neg h]
      apply ih
      intro c hc
      rcases List.mem_cons.mp hc with rfl | hc2
      · exact digitChar_ne_underscore _
      · exact hacc c hc2

theorem natToStr_no_underscore (n : Nat) : '_' ∉ (natToStr n).data := by
  intro h
  exact natDigitsAux_chars (n + 1) n [] (by simp) '_' h rfl

theorem natDigitsAux_peel : ∀ (fuel n : Nat) (acc : List Char),
    natDigitsAux (fuel + 1) n acc = natDigitsAux (fuel + 1) n [] ++ acc := by
  intro fuel
  induction fuel with
  | zero =>
    intro n acc
    rw [natDigitsAux_succ 0 n acc, natDigitsAux_succ 0 n []]
    by_cases h : n < 10
    · rw [if_pos h, if_pos h]
      rfl
    · rw [if_neg h, if_neg h]
      rfl
  | succ fuel ih =>
    intro n acc
    rw [natDigitsAux_succ (fuel + 1) n acc, natDigitsAux_succ (fuel + 1) n []]
    by_cases h : n < 10
    · rw [if_pos h, if_pos h]
      rfl
    · rw [if_neg h, if_neg h,
        ih (n / 10) (digitChar (n % 10) :: acc), ih (n / 10) [digitChar (n % 10)]]
      simp

theorem valMsd_round : ∀ (fuel n : Nat), n ≤ fuel →
    valMsd (natDigitsAux (fuel + 1) n []) = n := by
  intro fuel
  induction fuel with
  | zero =>
    intro n hn
    have h0 : n = 0 := by omega
    subst h0
    decide
  | succ fuel ih =>
    intro n hn
    rw [natDigitsAux_succ]
    by_cases h : n < 10
    · rw [if_pos h]
      have ht := digitChar_toNat n
      simp only [valMsd, List.foldl_cons, List.foldl_nil]
      omega
    · rw [if_neg h]
      rw [natDigitsAux_peel]
      have hdiv : n / 10 ≤ fuel := by omega
      have e : valMsd (natDigitsAux (fuel + 1) (n / 10) [] ++ [digitChar (n % 10)])
             = 10 * valMsd (natDigitsAux (fuel + 1) (n / 10) []) +
                 ((digitChar (n % 10)).toNat - 48) := by
        unfold valMsd
        rw [List.foldl_append]
        rfl
      rw [e, ih (n / 10) hdiv, digitChar_toNat]
      omega

theorem natToStr_inj {a b : Nat} (h : natToStr a = natToStr b) : a = b := by
  have h2 : natDigitsAux (a + 1) a [] = natDigitsAux (b + 1) b [] :=
    congrArg String.data h
  have ha := valMsd_round a a (le_refl a)
  have hb := valMsd_round b b (le_refl b)
  rw [h2] at ha
  rw [hb] at ha
  exact ha.symm

theorem splitChar_cons (sep c : Char) (t : List Char) :
    splitChar sep (c :: t) =
      if c = sep then [] :: splitChar sep t
      else (c :: (splitChar sep t).headD []) :: (splitChar sep t).tail := rfl

theorem splitChar_no_sep (sep : Char) :
    ∀ (l : List Char), sep ∉ l → splitChar sep l = [l] := by
  intro l
  induction l with
  | nil => intro _; rfl
  | cons c t ih =>
    intro h
    simp only [List.mem_cons] at h
    push_neg at h
    rw [splitChar_cons, if_neg (fun he => h.1 he.symm), ih h.2]
    rfl

theorem splitChar_sep_append (sep : Char) :
    ∀ (xs ys : List Char), sep ∉ xs →
      splitChar sep (xs ++ sep :: ys) = xs :: splitChar sep ys := by
  intro xs
  induction xs with
  | nil =>
    intro ys _
    rw [List.nil_append, splitChar_cons, if_pos rfl]
  | cons x t ih =>
    intro ys h
    simp only [List.mem_cons] at h
    push_neg at h
    rw [List.cons_append, splitChar_cons, if_neg (fun he => h.1 he.symm), ih ys h.2]
    rfl

theorem sep_split_unique {sep : Char} :
    ∀ (xs1 xs2 ys1 ys2 : List Char),
      sep ∉ xs1 → sep ∉ xs2 →
      xs1 ++ sep :: ys1 = xs2 ++ sep :: ys2 → xs1 = xs2 ∧ ys1 = ys2 := by
  intro xs1
  induction xs1 with
  | nil =>
    intro xs2 ys1 ys2 _ h2 h
    cases xs2 with
    | nil =>
      simp only [List.nil_append, List.cons.injEq, true_and] at h
      exact ⟨rfl, h⟩
    | cons a t =>
      simp only [List.nil_append, List.cons_append, List.cons.injEq] at h
      apply absurd _ h2
      rw [h.1]
      exact List.mem_cons_self a t
  | cons x t ih =>
    intro xs2 ys1 ys2 h1 h2 h
    cases xs2 with
    | nil =>
      simp only [List.nil_append, List.cons_append, List.cons.injEq] at h
      apply absurd _ h1
      rw [← h.1]
      exact List.mem_cons_self x t
    | cons a ta =>
      simp only [List.cons_append, List.cons.injEq] at h
      simp only [List.mem_cons] at h1 h2
      push_neg at h1 h2
      have hr := ih ta ys1 ys2 h1.2 h2.2 h.2
      exact ⟨by rw [h.1, hr.1], hr.2⟩

theorem pay_data_eq : "pay_".data = ['p', 'a', 'y', '_'] := rfl

theorem uscore_data_eq : "_".data = ['_'] := rfl

theorem payment_comment_data (u : String) (t : Nat) :
    (payment_comment u t).data =
      'p' :: 'a' :: 'y' :: '_' :: (u.data ++ '_' :: (natToStr t).data) := by
  simp [payment_comment, str_data_append, pay_data_eq, uscore_data_eq, List.append_assoc]

theorem payment_comment_inj {u1 u2 : String} {t1 t2 : Nat}
    (h1 : '_' ∉ u1.data) (h2 : '_' ∉ u2.data)
    (h : payment_comment u1 t1 = payment_comment u2 t2) : u1 = u2 ∧ t1 = t2 := by
  have hd := congrArg String.data h
  rw [payment_comment_data, payment_comment_data] at hd
  simp only [List.cons.injEq, true_and] at hd
  have hsep := sep_split_unique u1.data u2.data _ _ h1 h2 hd
  exact ⟨string_data_inj hsep.1, natToStr_inj (string_data_inj hsep.2)⟩

theorem chatBonus_zero (cfg : Bool) (c : MemberCheck)
    (h : cfg = true → checkFailsOrNonMember c = true) : chatBonus cfg c = 0 := by
  cases cfg with
  | false => rfl
  | true =>
    have hf := h rfl
    cases c with
    | err => rfl
    | ok st =>
      unfold checkFailsOrNonMember at hf
      simp only [Bool.not_eq_true'] at hf
      simp [chatBonus, hf]

/-- C3: when `manual_limit` is set to `M`, `calculate_limit` returns exactly
`M`, for every membership environment: no chat is consulted and no
membership outcome can change the result. -/
theorem manual_limit_overrides (env : Env) (u : UserRecord) (M : Nat)
    (h : u.manual_limit = some M) : calculate_limit env u = M := by
  unfold calculate_limit
  rw [h]

theorem manual_limit_overrides_witness :
    calculate_limit
      ⟨true, true, MemberCheck.ok ChatStatus.member, MemberCheck.ok ChatStatus.creator⟩
      ⟨"alice", some 5, 0, []⟩ = 5 :=
  manual_limit_overrides _ _ 5 rfl

/-- C4: with `manual_limit` unset, if every configured chat check fails or
reports a non-counting status then `calculate_limit` falls back to the
baseline 1; moreover a raised check is interchangeable with a non-member
status, so a failure on chat 1 does not abort the evaluation of chat 2. -/
theorem auto_limit_baseline :
    (∀ (env : Env) (u : UserRecord), u.manual_limit = none →
      (env.chat1 = true → checkFailsOrNonMember env.check1 = true) →
      (env.chat2 = true → checkFailsOrNonMember env.check2 = true) →
      calculate_limit env u = 1)
    ∧ (∀ (env : Env) (u : UserRecord), u.manual_limit = none →
      env.check1 = MemberCheck.err →
      calculate_limit env u =
        calculate_limit { env with check1 := MemberCheck.ok ChatStatus.left } u) := by
  constructor
  · intro env u hm hc1 hc2
    simp only [calculate_limit, hm]
    rw [chatBonus_zero env.chat1 env.check1 hc1, chatBonus_zero env.chat2 env.check2 hc2]
    rfl
  · intro env u hm hc
    simp only [calculate_limit, hm]
    rw [hc]
    rfl

theorem auto_limit_baseline_witness :
    calculate_limit ⟨true, true, MemberCheck.err, MemberCheck.ok ChatStatus.left⟩
      ⟨"bob", none, 0, []⟩ = 1
    ∧ calculate_limit ⟨true, true, MemberCheck.err, MemberCheck.ok ChatStatus.member⟩
        ⟨"bob", none, 0, []⟩ =
      calculate_limit ⟨true, true, MemberCheck.ok ChatStatus.left, MemberCheck.ok ChatStatus.member⟩
        ⟨"bob", none, 0, []⟩ :=
  ⟨auto_limit_baseline.1 _ _ rfl (fun _ => by decide) (fun _ => by decide),
   auto_limit_baseline.2 ⟨true, true, MemberCheck.err, MemberCheck.ok ChatStatus.member⟩
     ⟨"bob", none, 0, []⟩ rfl rfl⟩

/-- C9 counterexample: a present `data.json` holding invalid-UTF-8 bytes is
unreadable content, yet `load_data` does not return the empty default
snapshot there: the `UnicodeDecodeError` is not among the caught exceptions
and escapes to the caller; an unreadable path (`OSError`) likewise raises. -/
theorem load_data_fatal_cex :
    load_data FileState.badUtf8 = LoadResult.raised PyExc.unicodeDecodeError
    ∧ load_data FileState.unreadable = LoadResult.raised PyExc.osError
    ∧ load_data FileState.badUtf8 ≠ LoadResult.ok emptySnapshot := by
  decide

/-- C9 amended: `load_data` returns the empty default snapshot, raising no
error to the caller, exactly in the fail-closed cases the code catches —
the file missing at the existence check, the file vanishing before `open`
(`FileNotFoundError`), or content that is readable UTF-8 but not valid JSON
(`json.JSONDecodeError`); content that is not valid UTF-8 and paths that
cannot be opened instead raise uncaught. -/
theorem load_data_defaults (fs : FileState)
    (h : fs = FileState.missing ∨ fs = FileState.vanished ∨ fs = FileState.badJson) :
    load_data fs = LoadResult.ok emptySnapshot := by
  rcases h with rfl | rfl | rfl <;> rfl

theorem load_data_defaults_witness :
    load_data FileState.missing = LoadResult.ok emptySnapshot
    ∧ load_data FileState.vanished = LoadResult.ok emptySnapshot
    ∧ load_data FileState.badJson = LoadResult.ok emptySnapshot :=
  ⟨load_data_defaults _ (Or.inl rfl), load_data_defaults _ (Or.inr (Or.inl rfl)),
   load_data_defaults _ (Or.inr (Or.inr rfl))⟩

/-- C10: when the reference is pending but the recorded payer has no user
record, `finalize_payment` is a silent no-op: it reports nothing and leaves
the whole snapshot unchanged (pending entry kept, no limit change, nothing
persisted). -/
theorem finalize_missing_user_noop (env : Env) (ref : String) (s : Snapshot)
    (info : PendingPayment)
    (hp : alGet s.pending ref = some info)
    (hu : alGet s.users info.user_id = none) :
    finalize_payment env ref s = (none, s) := by
  simp only [finalize_payment, hp, hu]

theorem finalize_missing_user_noop_witness :
    finalize_payment ⟨false, false, MemberCheck.err, MemberCheck.err⟩ "r"
      ⟨[], [("r", ⟨"9", amount_ton, 0, "waiting"⟩)]⟩ =
    (none, ⟨[], [("r", ⟨"9", amount_ton, 0, "waiting"⟩)]⟩) :=
  finalize_missing_user_noop _ _ _ ⟨"9", amount_ton, 0, "waiting"⟩ rfl rfl

/-- C2: for a pending reference whose payer exists, the first
`finalize_payment` succeeds, stores `manual_limit` as the pre-reconciliation
baseline (the set manual value, else the materialized automatic limit) plus
exactly one, and removes the pending entry; a second call with the same
reference finds nothing pending and changes nothing, so reconciliation
happens at most once. -/
theorem reconcile_once (env env2 : Env) (ref : String) (s : Snapshot)
    (info : PendingPayment) (u : UserRecord)
    (hp : alGet s.pending ref = some info)
    (hu : alGet s.users info.user_id = some u)
    (hnd : (s.pending.map Prod.fst).Nodup) :
    finalize_payment env ref s =
      (some (baseline env u + 1),
       { users := alSet s.users info.user_id { u with manual_limit := some (baseline env u + 1) },
         pending := alDel s.pending ref }) ∧
    alGet ((finalize_payment env ref s).2).pending ref = none ∧
    finalize_payment env2 ref ((finalize_payment env ref s).2) =
      (none, (finalize_payment env ref s).2) := by
  have h1 : finalize_payment env ref s =
      (some (baseline env u + 1),
       { users := alSet s.users info.user_id { u with manual_limit := some (baseline env u + 1) },
         pending := alDel s.pending ref }) := by
    simp only [finalize_payment, hp, hu]
  refine ⟨h1, ?_, ?_⟩
  · rw [h1]
    exact alGet_alDel_self s.pending ref hnd
  · set s2 := (finalize_payment env ref s).2 with hs2
    have h2 : alGet s2.pending ref = none := by
      rw [hs2, h1]
      exact alGet_alDel_self s.pending ref hnd
    simp only [finalize_payment, h2]

theorem reconcile_once_witness :
    finalize_payment ⟨false, false, MemberCheck.err, MemberCheck.err⟩ "r"
        ⟨[("7", ⟨"bob", some 3, 0, []⟩)], [("r", ⟨"7", amount_ton, 0, "waiting"⟩)]⟩ =
      (some 4, ⟨[("7", ⟨"bob", some 4, 0, []⟩)], []⟩) ∧
    alGet ((finalize_payment ⟨false, false, MemberCheck.err, MemberCheck.err⟩ "r"
        ⟨[("7", ⟨"bob", some 3, 0, []⟩)], [("r", ⟨"7", amount_ton, 0, "waiting"⟩)]⟩).2).pending "r"
      = none ∧
    finalize_payment ⟨false, false, MemberCheck.err, MemberCheck.err⟩ "r"
        ((finalize_payment ⟨false, false, MemberCheck.err, MemberCheck.err⟩ "r"
          ⟨[("7", ⟨"bob", some 3, 0, []⟩)], [("r", ⟨"7", amount_ton, 0, "waiting"⟩)]⟩).2) =
      (none, (finalize_payment ⟨false, false, MemberCheck.err, MemberCheck.err⟩ "r"
        ⟨[("7", ⟨"bob", some 3, 0, []⟩)], [("r", ⟨"7", amount_ton, 0, "waiting"⟩)]⟩).2) :=
  reconcile_once _ _ "r" _ ⟨"7", amount_ton, 0, "waiting"⟩ ⟨"bob", some 3, 0, []⟩
    rfl rfl (by decide)

theorem setlim_data_eq : "set_lim_".data = ['s', 'e', 't', '_', 'l', 'i', 'm', '_'] := rfl

theorem limit_callback_data_eq (target : String) (lim : Nat) :
    (limit_callback_data target lim).data =
      ['s', 'e', 't'] ++ '_' ::
        (['l', 'i', 'm'] ++ '_' :: (target.data ++ '_' :: (natToStr lim).data)) := by
  simp [limit_callback_data, str_data_append, setlim_data_eq, uscore_data_eq, List.append_assoc]

/-- C7: the admin set-limit callback never reaches the store.  Its own
keyboard produces callback data `set_lim_<target>_<lim>`, which
`split("_")` cuts into four parts, so the three-name unpacking raises
`ValueError` for every target id (digit strings contain no underscore) and
every limit; the handler then aborts with the snapshot unchanged instead of
overwriting `manual_limit` and persisting. -/
theorem set_limit_value_error (s : Snapshot) (target : String) (h : '_' ∉ target.data) :
    (∀ lim : Nat, set_limit_callback (limit_callback_data target lim) s =
      (SetLimitResult.valueError, s))
    ∧ ∀ cb ∈ get_admin_limits_keyboard target,
        set_limit_callback cb s = (SetLimitResult.valueError, s) := by
  have key : ∀ lim : Nat, set_limit_callback (limit_callback_data target lim) s =
      (SetLimitResult.valueError, s) := by
    intro lim
    have hsplit : splitChar '_' (limit_callback_data target lim).data =
        [['s', 'e', 't'], ['l', 'i', 'm'], target.data, (natToStr lim).data] := by
      rw [limit_callback_data_eq]
      rw [splitChar_sep_append '_' ['s', 'e', 't'] _ (by decide)]
      rw [splitChar_sep_append '_' ['l', 'i', 'm'] _ (by decide)]
      rw [splitChar_sep_append '_' target.data _ h]
      rw [splitChar_no_sep '_' (natToStr lim).data (natToStr_no_underscore lim)]
    unfold set_limit_callback
    rw [hsplit]
    rfl
  refine ⟨key, ?_⟩
  intro cb hcb
  simp only [get_admin_limits_keyboard, List.mem_map] at hcb
  obtain ⟨lim, _, rfl⟩ := hcb
  exact key lim

theorem set_limit_value_error_witness :
    set_limit_callback (limit_callback_data "42" 8)
      ⟨[("42", ⟨"bob", none, 0, []⟩)], []⟩ =
    (SetLimitResult.valueError, ⟨[("42", ⟨"bob", none, 0, []⟩)], []⟩) :=
  (set_limit_value_error ⟨[("42", ⟨"bob", none, 0, []⟩)], []⟩ "42" (by decide)).1 8

/-- C8 counterexample: two purchases by user `5` within the same clock
second generate the very same reference `pay_5_1000`; the second call's
reference collides with the pending entry already stored by the first, and
the second store overwrites it, leaving a single pending entry. -/
theorem payment_ref_collision_cex :
    ((buy_key_handler "5" 1000 ((buy_key_handler "5" 1000 emptySnapshot).2)).1
        ∈ ((buy_key_handler "5" 1000 emptySnapshot).2).pending.map Prod.fst)
    ∧ ((buy_key_handler "5" 1000 ((buy_key_handler "5" 1000 emptySnapshot).2)).2).pending.length
        = 1 := by
  decide

/-- C8 amended: references generated by `buy_key_handler` are distinct
whenever the (payer id, integer second) pairs differ — the reference
determines both — but calls with the same payer in the same second reuse
the same reference, which then collides with the existing pending entry. -/
theorem payment_ref_distinct (uid1 uid2 : String) (t1 t2 : Nat) (s1 s2 : Snapshot)
    (h1 : '_' ∉ uid1.data) (h2 : '_' ∉ uid2.data)
    (hne : ¬(uid1 = uid2 ∧ t1 = t2)) :
    (buy_key_handler uid1 t1 s1).1 ≠ (buy_key_handler uid2 t2 s2).1 := by
  intro h
  exact hne (payment_comment_inj h1 h2 h)

theorem payment_ref_distinct_witness :
    (buy_key_handler "5" 1 emptySnapshot).1 ≠ (buy_key_handler "5" 2 emptySnapshot).1 :=
  payment_ref_distinct "5" "5" 1 2 emptySnapshot emptySnapshot
    (by decide) (by decide) (by decide)

theorem issued_key_credential (env : Env) (uid uname keyHex idHex : String) (now : Int)
    (s s' : Snapshot) (k : Key) (p l : Nat)
    (h : get_key_handler env uid uname keyHex idHex now s = (IssueResult.issued k p l, s')) :
    k.key = generate_key_string keyHex := by
  by_cases hge : (ensured_record uid uname s).keys.length ≥
      calculate_limit env (ensured_record uid uname s)
  · simp only [get_key_handler] at h
    rw [if_pos hge] at h
    simp at h
  · simp only [get_key_handler] at h
    rw [if_neg hge] at h
    have h1 := congrArg Prod.fst h
    injection h1 with hk _ _
    rw [← hk]

theorem char_upper_hex_roundtrip (c : Char) (h : isLowerHex c = true) :
    Char.toLower (Char.toUpper c) = c := by
  simp only [isLowerHex, decide_eq_true_eq] at h
  rcases h with rfl | rfl | rfl | rfl | rfl | rfl | rfl | rfl | rfl | rfl | rfl | rfl |
    rfl | rfl | rfl | rfl <;> decide

theorem char_upper_hex_inj (a b : Char) (ha : isLowerHex a = true) (hb : isLowerHex b = true)
    (h : Char.toUpper a = Char.toUpper b) : a = b := by
  have h2 := congrArg Char.toLower h
  rw [char_upper_hex_roundtrip a ha, char_upper_hex_roundtrip b hb] at h2
  exact h2

theorem map_upper_hex_inj : ∀ (l1 l2 : List Char),
    (∀ c ∈ l1, isLowerHex c = true) → (∀ c ∈ l2, isLowerHex c = true) →
    l1.map Char.toUpper = l2.map Char.toUpper → l1 = l2 := by
  intro l1
  induction l1 with
  | nil =>
    intro l2 _ _ h
    cases l2 with
    | nil => rfl
    | cons b tb => simp at h
  | cons a t ih =>
    intro l2 h1 h2 h
    cases l2 with
    | nil => simp at h
    | cons b tb =>
      simp only [List.map_cons, List.cons.injEq] at h
      have hab := char_upper_hex_inj a b (h1 a (List.mem_cons_self a t))
        (h2 b (List.mem_cons_self b tb)) h.1
      have ht := ih tb (fun c hc => h1 c (List.mem_cons.mpr (Or.inr hc)))
        (fun c hc => h2 c (List.mem_cons.mpr (Or.inr hc))) h.2
      rw [hab, ht]

theorem kvn_data_eq : "KVN-".data = ['K', 'V', 'N', '-'] := rfl

theorem generate_key_string_data (t : String) :
    (generate_key_string t).data = 'K' :: 'V' :: 'N' :: '-' :: t.data.map Char.toUpper := by
  simp [generate_key_string, pyUpper, str_data_append, kvn_data_eq]

theorem generate_key_string_inj (t1 t2 : String)
    (h1 : isLowerHexStr t1 = true) (h2 : isLowerHexStr t2 = true)
    (h : generate_key_string t1 = generate_key_string t2) : t1 = t2 := by
  have hd := congrArg String.data h
  rw [generate_key_string_data, generate_key_string_data] at hd
  simp only [List.cons.injEq, true_and] at hd
  simp only [isLowerHexStr, List.all_eq_true] at h1 h2
  exact string_data_inj (map_upper_hex_inj _ _ h1 h2 hd)

/-- C5 counterexample: the issuer performs no store-level uniqueness check,
so when the random oracle repeats the token `aa` for two successful
issuances to the same user (limit 2), the store ends up with two keys whose
credential is `KVN-AA`: the collected credentials are not pairwise
distinct. -/
theorem credential_collision_cex :
    ¬ (credList ((get_key_handler ⟨false, false, MemberCheck.err, MemberCheck.err⟩
        "1" "u" "aa" "bb" 5
        ((get_key_handler ⟨false, false, MemberCheck.err, MemberCheck.err⟩
          "1" "u" "aa" "bb" 0
          ⟨[("1", ⟨"u", some 2, 0, []⟩)], []⟩).2)).2)).Nodup := by
  decide

/-- C5 amended: credentials of successfully issued keys are pairwise
distinct provided the lowercase-hex tokens drawn from the random oracle are
pairwise distinct (`generate_key_string` is injective on the token); the
code performs no store-level uniqueness check, so a repeated token yields a
duplicate credential. -/
theorem credential_distinct (env1 env2 : Env)
    (uid1 un1 kh1 id1 uid2 un2 kh2 id2 : String) (n1 n2 : Int)
    (s1 s2 s1x s2x : Snapshot) (k1 k2 : Key) (p1 l1 p2 l2 : Nat)
    (he1 : get_key_handler env1 uid1 un1 kh1 id1 n1 s1 = (IssueResult.issued k1 p1 l1, s1x))
    (he2 : get_key_handler env2 uid2 un2 kh2 id2 n2 s2 = (IssueResult.issued k2 p2 l2, s2x))
    (hh1 : isLowerHexStr kh1 = true) (hh2 : isLowerHexStr kh2 = true)
    (hne : kh1 ≠ kh2) : k1.key ≠ k2.key := by
  rw [issued_key_credential _ _ _ _ _ _ _ _ _ _ _ he1,
    issued_key_credential _ _ _ _ _ _ _ _ _ _ _ he2]
  intro h
  exact hne (generate_key_string_inj kh1 kh2 hh1 hh2 h)

theorem credential_distinct_witness : ("KVN-AA" : String) ≠ "KVN-AB" :=
  credential_distinct ⟨false, false, MemberCheck.err, MemberCheck.err⟩
    ⟨false, false, MemberCheck.err, MemberCheck.err⟩
    "1" "u" "aa" "bb" "1" "u" "ab" "bb" 0 0
    emptySnapshot emptySnapshot
    ⟨[("1", ⟨"u", none, 1, [⟨"BB", "KVN-AA", 2592000, 0⟩]⟩)], []⟩
    ⟨[("1", ⟨"u", none, 1, [⟨"BB", "KVN-AB", 2592000, 0⟩]⟩)], []⟩
    ⟨"BB", "KVN-AA", 2592000, 0⟩ ⟨"BB", "KVN-AB", 2592000, 0⟩ 1 1 1 1
    (by decide) (by decide) (by decide) (by decide) (by decide)

theorem get_key_handler_snd (env : Env) (uid uname kh ihx : String) (now : Int)
    (s : Snapshot) :
    (get_key_handler env uid uname kh ihx now s).2 = s ∨
    ∃ (k : Key),
      (get_key_handler env uid uname kh ihx now s).2 =
        { users := alSet (alSet s.users uid (ensured_record uid uname s)) uid
            { ensured_record uid uname s with
              keys := (ensured_record uid uname s).keys ++ [k],
              keys_used := ((ensured_record uid uname s).keys ++ [k]).length },
          pending := s.pending } ∧
      (ensured_record uid uname s).keys.length < calculate_limit env (ensured_record uid uname s) := by
  by_cases hge : (ensured_record uid uname s).keys.length ≥
      calculate_limit env (ensured_record uid uname s)
  · left
    simp only [get_key_handler]
    rw [if_pos hge]
  · right
    refine ⟨{ id := pyUpper ihx, key := generate_key_string kh,
              valid_until := now + 30 * 86400, created_at := now }, ?_, by omega⟩
    simp only [get_key_handler]
    rw [if_neg hge]
    simp [ensure_user]

theorem limitInv_issueStep (envOf : String → Env) (c : IssueCall) (s : Snapshot)
    (h : limitInv envOf s) : limitInv envOf (issueStep envOf s c) := by
  rcases get_key_handler_snd (envOf c.uid) c.uid c.uname c.keyHex c.idHex c.now s with
    heq | ⟨k, heq, hlt⟩
  · show limitInv envOf (get_key_handler (envOf c.uid) c.uid c.uname c.keyHex c.idHex c.now s).2
    rw [heq]
    exact h
  · show limitInv envOf (get_key_handler (envOf c.uid) c.uid c.uname c.keyHex c.idHex c.now s).2
    rw [heq]
    intro p hp
    rcases mem_alSet p _ _ _ hp with rfl | hp2
    · dsimp only
      have hc : calculate_limit (envOf c.uid) (ensured_record c.uid c.uname s) =
          calculate_limit (envOf c.uid)
            { ensured_record c.uid c.uname s with
              keys := (ensured_record c.uid c.uname s).keys ++ [k],
              keys_used := ((ensured_record c.uid c.uname s).keys ++ [k]).length } :=
        calculate_limit_congr _ _ _ rfl
      rw [← hc, List.length_append]
      simp only [List.length_cons, List.length_nil]
      omega
    · rcases mem_alSet p _ _ _ hp2 with rfl | hp3
      · dsimp only
        cases h0 : alGet s.users c.uid with
        | none => simp [ensured_record, h0]
        | some u0 =>
          have hu0 := h (c.uid, u0) (alGet_mem _ _ _ h0)
          simp only [ensured_record, h0]
          have hc : calculate_limit (envOf c.uid) u0 =
              calculate_limit (envOf c.uid) { u0 with username := c.uname } :=
            calculate_limit_congr _ _ _ rfl
          rw [← hc]
          exact hu0
      · exact h p hp3

/-- C1: (a) whenever the ensured record's key count has reached the
computed limit, the issue handler returns `LimitExceeded` carrying exactly
that limit and count and the persisted snapshot is returned unchanged (no
key appended, nothing persisted); (b) consequently the invariant that every
user's key count stays within that user's computed limit is preserved by
every sequence of issuance attempts, and (c) it holds unconditionally after
any sequence of issuance attempts starting from the empty store. -/
theorem issue_limit_enforced :
    (∀ (env : Env) (uid uname keyHex idHex : String) (now : Int) (s : Snapshot),
      (ensured_record uid uname s).keys.length ≥
          calculate_limit env (ensured_record uid uname s) →
      get_key_handler env uid uname keyHex idHex now s =
        (IssueResult.limitExceeded (calculate_limit env (ensured_record uid uname s))
          ((ensured_record uid uname s).keys.length), s))
    ∧ (∀ (envOf : String → Env) (calls : List IssueCall) (s : Snapshot),
      limitInv envOf s → limitInv envOf (runIssues envOf calls s))
    ∧ ∀ (envOf : String → Env) (calls : List IssueCall),
      limitInv envOf (runIssues envOf calls emptySnapshot) := by
  have part2 : ∀ (envOf : String → Env) (calls : List IssueCall) (s : Snapshot),
      limitInv envOf s → limitInv envOf (runIssues envOf calls s) := by
    intro envOf calls
    induction calls with
    | nil => intro s h; exact h
    | cons c cs ih =>
      intro s h
      exact ih (issueStep envOf s c) (limitInv_issueStep envOf c s h)
  refine ⟨?_, part2, ?_⟩
  · intro env uid uname keyHex idHex now s hge
    simp only [get_key_handler]
    rw [if_pos hge]
  · intro envOf calls
    refine part2 envOf calls emptySnapshot ?_
    intro p hp
    simp [emptySnapshot] at hp

theorem issue_limit_enforced_witness :
    get_key_handler ⟨false, false, MemberCheck.err, MemberCheck.err⟩ "7" "u" "zz" "yy" 0
      ⟨[("7", ⟨"u", none, 1, [⟨"AA", "KVN-AA", 100, 0⟩]⟩)], []⟩ =
      (IssueResult.limitExceeded 1 1,
        ⟨[("7", ⟨"u", none, 1, [⟨"AA", "KVN-AA", 100, 0⟩]⟩)], []⟩)
    ∧ limitInv (fun _ => ⟨false, false, MemberCheck.err, MemberCheck.err⟩)
        (runIssues (fun _ => ⟨false, false, MemberCheck.err, MemberCheck.err⟩)
          [⟨"7", "u", "aa", "bb", 0⟩]
          ⟨[("7", ⟨"u", none, 1, [⟨"AA", "KVN-AA", 100, 0⟩]⟩)], []⟩)
    ∧ limitInv (fun _ => ⟨false, false, MemberCheck.err, MemberCheck.err⟩)
        (runIssues (fun _ => ⟨false, false, MemberCheck.err, MemberCheck.err⟩)
          [⟨"7", "u", "aa", "bb", 0⟩] emptySnapshot) := by
  refine ⟨issue_limit_enforced.1 _ "7" "u" "zz" "yy" 0 _ (by decide),
    issue_limit_enforced.2.1 _ [⟨"7", "u", "aa", "bb", 0⟩] _ ?_,
    issue_limit_enforced.2.2 _ [⟨"7", "u", "aa", "bb", 0⟩]⟩
  intro p hp
  simp only [List.mem_singleton] at hp
  subst hp
  decide

/-- C6: the counter invariant `keys_used = len(keys)` for every stored user
record is preserved by each core operation: user creation (`/start`), key
issuance, key listing, the admin limit change, payment creation and payment
reconciliation. -/
theorem keys_used_invariant (op : Op) (s : Snapshot) (h : keysInv s) :
    keysInv (applyOp op s) := by
  cases op with
  | start uid uname =>
    intro p hp
    rcases mem_alSet p _ _ _ hp with rfl | hp2
    · dsimp only
      cases h0 : alGet s.users uid with
      | none => simp [ensured_record, h0]
      | some u0 =>
        have hu0 := h (uid, u0) (alGet_mem _ _ _ h0)
        simp only [ensured_record, h0]
        exact hu0
    · exact h p hp2
  | issue env uid uname kh ihx now =>
    rcases get_key_handler_snd env uid uname kh ihx now s with heq | ⟨k, heq, _⟩
    · show keysInv (get_key_handler env uid uname kh ihx now s).2
      rw [heq]
      exact h
    · show keysInv (get_key_handler env uid uname kh ihx now s).2
      rw [heq]
      intro p hp
      rcases mem_alSet p _ _ _ hp with rfl | hp2
      · rfl
      · rcases mem_alSet p _ _ _ hp2 with rfl | hp3
        · dsimp only
          cases h0 : alGet s.users uid with
          | none => simp [ensured_record, h0]
          | some u0 =>
            have hu0 := h (uid, u0) (alGet_mem _ _ _ h0)
            simp only [ensured_record, h0]
            exact hu0
        · exact h p hp3
  | listKeys uid uname now => exact h
  | setLimit cbData =>
    show keysInv (set_limit_callback cbData s).2
    unfold set_limit_callback
    split
    · exact h
    · split
      · exact h
      · split
        · rename_i u0 heq
          intro p hp
          rcases mem_alSet p _ _ _ hp with rfl | hp2
          · exact h (_, u0) (alGet_mem _ _ _ heq)
          · exact h p hp2
        · exact h
  | buy uid nowSec =>
    intro p hp
    exact h p hp
  | finalize env ref =>
    show keysInv (finalize_payment env ref s).2
    unfold finalize_payment
    split
    · exact h
    · split
      · exact h
      · rename_i u0 heq
        intro p hp
        rcases mem_alSet p _ _ _ hp with rfl | hp2
        · exact h (_, u0) (alGet_mem _ _ _ heq)
        · exact h p hp2

theorem keys_used_invariant_witness :
    keysInv (applyOp
      (Op.issue ⟨false, false, MemberCheck.err, MemberCheck.err⟩ "7" "u" "aa" "bb" 0)
      ⟨[("7", ⟨"u", none, 0, []⟩)], []⟩) := by
  apply keys_used_invariant
  intro p hp
  simp only [List.mem_singleton] at hp
  subst hp
  rfl

theorem sanity_calculate_manual :
    calculate_limit ⟨true, true, MemberCheck.ok ChatStatus.member, MemberCheck.ok ChatStatus.member⟩
      ⟨"u", some 5, 0, []⟩ = 5 := by decide

theorem sanity_calculate_auto :
    calculate_limit ⟨true, true, MemberCheck.ok ChatStatus.member, MemberCheck.err⟩
      ⟨"u", none, 0, []⟩ = 3 := by decide

theorem sanity_issue :
    (get_key_handler ⟨false, false, MemberCheck.err, MemberCheck.err⟩ "1" "u" "aa" "bb" 0
      emptySnapshot).1 =
    IssueResult.issued ⟨"BB", "KVN-AA", 2592000, 0⟩ 1 1 := by decide
